import Mathlib

/-!
# Verification of the pixel-permutation core

Shallow embedding of the core of the `pixel-permutation-mvp` repository
(files `assign.py`, `proc.py`, `render.py`, `fileio.py`) and proofs about
it.  Machine reals are modelled as exact rationals; the seeded global
NumPy generator is modelled as an explicit deterministic stream derived
from the seed; NumPy's `argsort` is modelled as the stable argsort
(ties broken by original index — the default NumPy kind leaves tie order
unspecified, and the code perturbs the keys precisely to avoid ties).
-/

namespace PixelPerm

/-- An RGB color triple, one byte per channel in the source data
(`color = [r, g, b]` in the Python pixel dictionaries). -/
structure Color where
  r : Int
  g : Int
  b : Int
deriving DecidableEq, Repr, Inhabited

/-- A pixel record as produced by `proc.extract_pixels`:
`{'id': ..., 'color': [r,g,b], 'src_pos': [x,y]}`. -/
structure Pixel where
  id : Int
  color : Color
  src_pos : Int × Int
deriving DecidableEq, Repr, Inhabited

/-- A mapping entry as produced by `assign.create_assignment`:
`{'id': ..., 'color': ..., 'src_pos': ..., 'dst_pos': ...}`. -/
structure Entry where
  id : Int
  color : Color
  src_pos : Int × Int
  dst_pos : Int × Int
deriving DecidableEq, Repr, Inhabited

/-- `proc.calculate_luminance`: `0.299*r + 0.587*g + 0.114*b`. -/
def calculate_luminance (c : Color) : ℚ :=
  (299 / 1000 : ℚ) * c.r + (587 / 1000 : ℚ) * c.g + (114 / 1000 : ℚ) * c.b

/-- One step of a linear congruential generator.  Stands in for the state
transition of the seeded global NumPy generator (`np.random.seed(seed)`
followed by sequential `np.random.uniform` draws).  The exact Mersenne
Twister stream is not reproduced; the verified properties depend only on
the stream being a pure function of the seed and every draw lying in the
interval requested by the code. -/
def lcgStep (s : Nat) : Nat := (1103515245 * s + 12345) % 2 ^ 31

/-- The generator state before the `n`-th draw, a pure function of the seed. -/
def lcgState (seed n : Nat) : Nat := lcgStep^[n + 1] seed

/-- The `n`-th value of `np.random.uniform(-noise_scale, noise_scale)` after
`np.random.seed(seed)`, with `noise_scale = 1e-6` as in
`assign.create_assignment`. -/
def uniformNoise (seed n : Nat) : ℚ :=
  ((lcgState seed n : ℚ) / 2 ^ 31 * 2 - 1) * (1 / 1000000)

/-- The perturbed luminances of a pixel pool:
`[calculate_luminance(p['color']) + np.random.uniform(-1e-6, 1e-6) for p in pixels]`,
where `offset` counts the uniform draws already consumed from the seeded
stream (the source pool is perturbed first, then the target pool). -/
def perturbedLuminances (seed offset : Nat) (pixels : List Pixel) : List ℚ :=
  (List.range pixels.length).map
    (fun i => calculate_luminance (pixels.getD i default).color + uniformNoise seed (offset + i))

/-- Comparator of the stable argsort: ascending key, ties broken by
original index. -/
def argsortLE (keys : List ℚ) (i j : Nat) : Bool :=
  decide (keys.getD i 0 < keys.getD j 0) ||
    (decide (keys.getD i 0 = keys.getD j 0) && decide (i ≤ j))

/-- `np.argsort(keys)`: the indices `0, ..., len(keys)-1` sorted ascending
by key.  The code uses the default NumPy kind (quicksort/introsort),
which is not stable and leaves the order of equal keys unspecified; this
model breaks ties by original index, one concrete choice consistent with
the documented contract.  No theorem below depends on the model's tie
order: all properties proved about `argsort` (it is a permutation of the
index range carrying ascending keys) hold for every tie order. -/
def argsort (keys : List ℚ) : List Nat :=
  (List.range keys.length).mergeSort (argsortLE keys)

/-- Builds one mapping entry of `assign.create_assignment`: `id`, `color`
and `src_pos` from the source pixel, `dst_pos` from the target pixel's
position. -/
def mkEntry (sp tp : Pixel) : Entry :=
  { id := sp.id, color := sp.color, src_pos := sp.src_pos, dst_pos := tp.src_pos }

/-- The order in which `create_assignment` ranks the source pool
(`source_sorted_indices = np.argsort(source_luminance)`). -/
def sourceOrder (source_pixels : List Pixel) (seed : Nat) : List Nat :=
  argsort (perturbedLuminances seed 0 source_pixels)

/-- The order in which `create_assignment` ranks the target pool
(`target_sorted_indices = np.argsort(target_luminance)`); the target
perturbations are drawn after the `len(source_pixels)` source draws. -/
def targetOrder (source_pixels target_pixels : List Pixel) (seed : Nat) : List Nat :=
  argsort (perturbedLuminances seed source_pixels.length target_pixels)

/-- `assign.create_assignment`: perturb the luminances of both pools with
the seeded stream, argsort each pool, and zip the two rank orders into
mapping entries (`zip` truncates at the shorter order). -/
def create_assignment (source_pixels target_pixels : List Pixel) (seed : Nat) : List Entry :=
  let source_sorted_indices := sourceOrder source_pixels seed
  let target_sorted_indices := targetOrder source_pixels target_pixels seed
  (source_sorted_indices.zip target_sorted_indices).map
    (fun p => mkEntry (source_pixels.getD p.1 default) (target_pixels.getD p.2 default))

/-- The source pixels that actually appear in the mapping: the pool read
off along the source rank order, truncated at the length of the mapping. -/
def mappedSourcePixels (source_pixels target_pixels : List Pixel) (seed : Nat) : List Pixel :=
  ((sourceOrder source_pixels seed).take (min source_pixels.length target_pixels.length)).map
    (fun i => source_pixels.getD i default)

section BasicLemmas

lemma perturbedLuminances_length (seed offset : Nat) (pixels : List Pixel) :
    (perturbedLuminances seed offset pixels).length = pixels.length := by
  simp [perturbedLuminances]

lemma argsort_perm (keys : List ℚ) : List.Perm (argsort keys) (List.range keys.length) :=
  List.mergeSort_perm _ _

lemma argsort_length (keys : List ℚ) : (argsort keys).length = keys.length := by
  simpa using (argsort_perm keys).length_eq

lemma argsort_nodup (keys : List ℚ) : (argsort keys).Nodup :=
  ((argsort_perm keys).nodup_iff).mpr (List.nodup_range _)

lemma mem_argsort_lt (keys : List ℚ) {i : Nat} (h : i ∈ argsort keys) : i < keys.length := by
  have := (argsort_perm keys).mem_iff.mp h
  simpa using this

lemma argsortLE_trans (keys : List ℚ) (a b c : Nat)
    (hab : argsortLE keys a b) (hbc : argsortLE keys b c) : argsortLE keys a c := by
  simp only [argsortLE, Bool.or_eq_true, Bool.and_eq_true, decide_eq_true_eq] at *
  rcases hab with h1 | ⟨h1, h1i⟩ <;> rcases hbc with h2 | ⟨h2, h2i⟩
  · exact Or.inl (h1.trans h2)
  · exact Or.inl (h2 ▸ h1)
  · exact Or.inl (h1 ▸ h2)
  · exact Or.inr ⟨h1.trans h2, h1i.trans h2i⟩

lemma argsortLE_total (keys : List ℚ) (a b : Nat) :
    argsortLE keys a b || argsortLE keys b a := by
  simp only [argsortLE, Bool.or_eq_true, Bool.and_eq_true, decide_eq_true_eq]
  rcases lt_trichotomy (keys.getD a 0) (keys.getD b 0) with h | h | h
  · exact Or.inl (Or.inl h)
  · rcases Nat.le_total a b with hi | hi
    · exact Or.inl (Or.inr ⟨h, hi⟩)
    · exact Or.inr (Or.inr ⟨h.symm, hi⟩)
  · exact Or.inr (Or.inl h)

lemma argsort_pairwise (keys : List ℚ) :
    (argsort keys).Pairwise (fun i j => argsortLE keys i j = true) :=
  List.sorted_mergeSort (argsortLE_trans keys) (argsortLE_total keys) _

/-- The argsorted indices carry ascending keys. -/
lemma argsort_sorted (keys : List ℚ) :
    (argsort keys).Pairwise (fun i j => keys.getD i 0 ≤ keys.getD j 0) := by
  refine (argsort_pairwise keys).imp ?_
  intro i j hij
  simp only [argsortLE, Bool.or_eq_true, Bool.and_eq_true, decide_eq_true_eq] at hij
  rcases hij with h | ⟨h, _⟩
  · exact le_of_lt h
  · exact le_of_eq h

lemma lcgState_lt (seed n : Nat) : lcgState seed n < 2 ^ 31 := by
  have : lcgStep^[n + 1] seed = lcgStep (lcgStep^[n] seed) := by
    rw [Function.iterate_succ_apply']
  rw [lcgState, this, lcgStep]
  exact Nat.mod_lt _ (by norm_num)

/-- Every modelled uniform draw has magnitude at most `1e-6`. -/
lemma uniformNoise_bound (seed n : Nat) : |uniformNoise seed n| ≤ 1 / 1000000 := by
  have hlt : (lcgState seed n : ℚ) < 2 ^ 31 := by
    exact_mod_cast lcgState_lt seed n
  have hge : (0 : ℚ) ≤ (lcgState seed n : ℚ) := by positivity
  rw [uniformNoise, abs_mul, abs_of_pos (by norm_num : (0:ℚ) < 1 / 1000000)]
  have h1 : |((lcgState seed n : ℚ) / 2 ^ 31 * 2 - 1)| ≤ 1 := by
    rw [abs_le]
    constructor <;> nlinarith
  nlinarith [abs_nonneg ((lcgState seed n : ℚ) / 2 ^ 31 * 2 - 1)]

/-- Reading a list back off `List.range` of its length gives the list. -/
lemma map_getD_range (l : List Pixel) :
    (List.range l.length).map (fun i => l.getD i default) = l := by
  induction l with
  | nil => simp
  | cons a tl ih =>
      rw [List.length_cons, List.range_succ_eq_map, List.map_cons, List.map_map]
      simp only [Function.comp_def, List.getD_cons_succ, List.getD_cons_zero]
      rw [ih]

end BasicLemmas

section ZipLemmas

lemma map_fst_zip_eq_take {α β : Type} :
    ∀ (l₁ : List α) (l₂ : List β), (l₁.zip l₂).map Prod.fst = l₁.take l₂.length
  | [], _ => by simp
  | _ :: _, [] => by simp
  | a :: l₁, b :: l₂ => by
      simp [List.zip_cons_cons, map_fst_zip_eq_take l₁ l₂]

lemma map_snd_zip_eq_take {α β : Type} :
    ∀ (l₁ : List α) (l₂ : List β), (l₁.zip l₂).map Prod.snd = l₂.take l₁.length
  | [], _ => by simp
  | _ :: _, [] => by simp
  | a :: l₁, b :: l₂ => by
      simp [List.zip_cons_cons, map_snd_zip_eq_take l₁ l₂]

lemma getD_zip {α β : Type} [Inhabited α] [Inhabited β] :
    ∀ (l₁ : List α) (l₂ : List β) (k : Nat), k < l₁.length → k < l₂.length →
      (l₁.zip l₂).getD k default = (l₁.getD k default, l₂.getD k default)
  | [], _, _, h, _ => absurd h (by simp)
  | _ :: _, [], _, _, h => absurd h (by simp)
  | a :: l₁, b :: l₂, 0, _, _ => rfl
  | a :: l₁, b :: l₂, k + 1, h1, h2 => by
      simpa [List.zip_cons_cons] using
        getD_zip l₁ l₂ k (by simpa using h1) (by simpa using h2)

end ZipLemmas

section AssignmentTheorems

lemma sourceOrder_length (s : List Pixel) (seed : Nat) :
    (sourceOrder s seed).length = s.length := by
  simp [sourceOrder, argsort_length, perturbedLuminances_length]

lemma targetOrder_length (s t : List Pixel) (seed : Nat) :
    (targetOrder s t seed).length = t.length := by
  simp [targetOrder, argsort_length, perturbedLuminances_length]

lemma create_assignment_map_color (s t : List Pixel) (seed : Nat) :
    (create_assignment s t seed).map Entry.color =
      (mappedSourcePixels s t seed).map Pixel.color := by
  rw [create_assignment, mappedSourcePixels, List.map_map]
  have h1 : (Entry.color ∘ fun p : Nat × Nat =>
      mkEntry (s.getD p.1 default) (t.getD p.2 default)) =
      ((fun q : Pixel => q.color) ∘ (fun i => s.getD i default)) ∘ Prod.fst := rfl
  rw [h1, ← List.map_map, ← List.map_map, map_fst_zip_eq_take, targetOrder_length]
  have h2 : (sourceOrder s seed).take t.length =
      (sourceOrder s seed).take (min s.length t.length) := by
    rw [List.take_eq_take, sourceOrder_length]
    omega
  rw [h2, List.map_map]

lemma create_assignment_map_dst (s t : List Pixel) (seed : Nat) :
    (create_assignment s t seed).map Entry.dst_pos =
      ((targetOrder s t seed).take (min s.length t.length)).map
        (fun i => (t.getD i default).src_pos) := by
  rw [create_assignment, List.map_map]
  have h1 : (Entry.dst_pos ∘ fun p : Nat × Nat =>
      mkEntry (s.getD p.1 default) (t.getD p.2 default)) =
      (fun i => (t.getD i default).src_pos) ∘ Prod.snd := rfl
  rw [h1, ← List.map_map, map_snd_zip_eq_take, sourceOrder_length]
  have h2 : (targetOrder s t seed).take s.length =
      (targetOrder s t seed).take (min s.length t.length) := by
    rw [List.take_eq_take, targetOrder_length]
    omega
  rw [h2]

lemma create_assignment_map_id (s t : List Pixel) (seed : Nat) :
    (create_assignment s t seed).map Entry.id =
      ((sourceOrder s seed).take (min s.length t.length)).map
        (fun i => (s.getD i default).id) := by
  rw [create_assignment, List.map_map]
  have h1 : (Entry.id ∘ fun p : Nat × Nat =>
      mkEntry (s.getD p.1 default) (t.getD p.2 default)) =
      (fun i => (s.getD i default).id) ∘ Prod.fst := rfl
  rw [h1, ← List.map_map, map_fst_zip_eq_take, targetOrder_length]
  have h2 : (sourceOrder s seed).take t.length =
      (sourceOrder s seed).take (min s.length t.length) := by
    rw [List.take_eq_take, sourceOrder_length]
    omega
  rw [h2]

lemma create_assignment_length (s t : List Pixel) (seed : Nat) :
    (create_assignment s t seed).length = min s.length t.length := by
  rw [create_assignment]
  simp [List.length_zip, sourceOrder_length, targetOrder_length]

lemma mem_sourceOrder_lt (s : List Pixel) (seed : Nat) {i : Nat}
    (h : i ∈ sourceOrder s seed) : i < s.length := by
  have := mem_argsort_lt _ h
  rwa [perturbedLuminances_length] at this

lemma mem_targetOrder_lt (s t : List Pixel) (seed : Nat) {i : Nat}
    (h : i ∈ targetOrder s t seed) : i < t.length := by
  have := mem_argsort_lt _ h
  rwa [perturbedLuminances_length] at this

lemma getD_mem_of_lt {l : List Pixel} {i : Nat} (h : i < l.length) :
    l.getD i default ∈ l := by
  rw [List.getD_eq_getElem l default h]
  exact List.getElem_mem h

end AssignmentTheorems

section WitnessPools

def wPixA : Pixel := { id := 0, color := ⟨0, 0, 0⟩, src_pos := (0, 0) }
def wPixB : Pixel := { id := 1, color := ⟨255, 255, 255⟩, src_pos := (1, 0) }
def wPixC : Pixel := { id := 2, color := ⟨128, 128, 128⟩, src_pos := (0, 1) }
def wPixD : Pixel := { id := 3, color := ⟨64, 64, 64⟩, src_pos := (1, 1) }

/-- The 2×2 source raster of the spec's concrete scenario, extracted in
row-major order. -/
def wSource : List Pixel := [wPixA, wPixB, wPixC, wPixD]

/-- A 2×2 target raster with four distinct luminance-ordered colors. -/
def wTarget : List Pixel :=
  [⟨0, ⟨10, 10, 10⟩, (0, 0)⟩, ⟨1, ⟨40, 40, 40⟩, (1, 0)⟩,
   ⟨2, ⟨90, 90, 90⟩, (0, 1)⟩, ⟨3, ⟨200, 200, 200⟩, (1, 1)⟩]

end WitnessPools

/-- **C1.** Every entry of `create_assignment source target seed` carries
the `id` and the `color` of one source pixel (so, ids being unique, the
color of the source pixel identified by its id), and the colors across
all entries — as a multiset — are exactly the colors of the mapped source
pixels: nothing fabricated, nothing dropped among mapped entries. -/
theorem create_assignment_color_fidelity (s t : List Pixel) (seed : Nat)
    (hid : (s.map Pixel.id).Nodup) :
    (∀ e ∈ create_assignment s t seed,
        (∃ p ∈ s, p.id = e.id ∧ p.color = e.color) ∧
        ∀ p ∈ s, p.id = e.id → p.color = e.color) ∧
    (((create_assignment s t seed).map Entry.color : List Color) : Multiset Color) =
      (((mappedSourcePixels s t seed).map Pixel.color : List Color) : Multiset Color) := by
  constructor
  · intro e he
    simp only [create_assignment] at he
    rcases List.mem_map.mp he with ⟨pr, hpr, rfl⟩
    obtain ⟨i, j⟩ := pr
    obtain ⟨h1, h2⟩ := List.of_mem_zip hpr
    have hi : i < s.length := mem_sourceOrder_lt s seed h1
    refine ⟨⟨s.getD i default, getD_mem_of_lt hi, rfl, rfl⟩, ?_⟩
    intro p hp hpid
    have hpq : p = s.getD i default :=
      List.inj_on_of_nodup_map hid hp (getD_mem_of_lt hi) hpid
    rw [hpq]
    rfl
  · exact congrArg (fun l : List Color => (l : Multiset Color))
      (create_assignment_map_color s t seed)

/-- Witness for C1 at the spec's concrete 2×2 scenario. -/
theorem create_assignment_color_fidelity_witness :
    ((wSource.map Pixel.id).Nodup) ∧
    ((∀ e ∈ create_assignment wSource wTarget 42,
        (∃ p ∈ wSource, p.id = e.id ∧ p.color = e.color) ∧
        ∀ p ∈ wSource, p.id = e.id → p.color = e.color) ∧
    (((create_assignment wSource wTarget 42).map Entry.color : List Color) : Multiset Color) =
      (((mappedSourcePixels wSource wTarget 42).map Pixel.color : List Color) : Multiset Color)) :=
  ⟨by decide, create_assignment_color_fidelity wSource wTarget 42 (by decide)⟩

/-- **C2.** `create_assignment` is deterministic: identical source pool,
target pool and seed give a bit-identical mapping.  In this embedding the
seeded generator is an explicit pure function of the seed (there is no
hidden global state), so the result is a pure function of the three
arguments. -/
theorem create_assignment_deterministic (s₁ t₁ s₂ t₂ : List Pixel) (seed₁ seed₂ : Nat)
    (hs : s₁ = s₂) (ht : t₁ = t₂) (hseed : seed₁ = seed₂) :
    create_assignment s₁ t₁ seed₁ = create_assignment s₂ t₂ seed₂ := by
  subst hs; subst ht; subst hseed; rfl

/-- Witness for C2: two calls on the concrete 2×2 pools with seed 42
agree. -/
theorem create_assignment_deterministic_witness :
    wSource = wSource ∧ wTarget = wTarget ∧ (42 : Nat) = 42 ∧
    create_assignment wSource wTarget 42 = create_assignment wSource wTarget 42 :=
  ⟨rfl, rfl, rfl,
    create_assignment_deterministic wSource wTarget wSource wTarget 42 42 rfl rfl rfl⟩

/-- **C10.** When the pools have equal length, the mapping uses each target
position exactly once (the multiset of `dst_pos` values equals the multiset
of target positions) and, the source ids being pairwise distinct, the
entries' ids are pairwise distinct: the mapping is a bijection from source
pixel identities onto target positions. -/
theorem create_assignment_equal_sizes_bijection (s t : List Pixel) (seed : Nat)
    (hlen : s.length = t.length) (hid : (s.map Pixel.id).Nodup) :
    (((create_assignment s t seed).map Entry.dst_pos : List (Int × Int)) :
        Multiset (Int × Int)) =
      ((t.map Pixel.src_pos : List (Int × Int)) : Multiset (Int × Int)) ∧
    ((create_assignment s t seed).map Entry.id).Nodup := by
  have hmin : min s.length t.length = t.length := by omega
  constructor
  · rw [create_assignment_map_dst, hmin, ← targetOrder_length s t seed, List.take_length]
    rw [Multiset.coe_eq_coe]
    have hperm : List.Perm (targetOrder s t seed) (List.range t.length) := by
      simpa [targetOrder, perturbedLuminances_length] using
        argsort_perm (perturbedLuminances seed s.length t)
    have heq : (List.range t.length).map (fun i => (t.getD i default).src_pos) =
        t.map Pixel.src_pos := by
      have hc : (fun i => (t.getD i default).src_pos) =
          Pixel.src_pos ∘ (fun i => t.getD i default) := rfl
      rw [hc, ← List.map_map, map_getD_range]
    exact (hperm.map _).trans (heq ▸ List.Perm.refl _)
  · have hmin' : min s.length t.length = s.length := by omega
    rw [create_assignment_map_id, hmin', ← sourceOrder_length s seed, List.take_length]
    have hperm : List.Perm (sourceOrder s seed) (List.range s.length) := by
      simpa [sourceOrder, perturbedLuminances_length] using
        argsort_perm (perturbedLuminances seed 0 s)
    have hpm : List.Perm ((sourceOrder s seed).map (fun i => (s.getD i default).id))
        ((List.range s.length).map (fun i => (s.getD i default).id)) := hperm.map _
    refine (hpm.nodup_iff).mpr ?_
    have : (fun i => (s.getD i default).id) =
        Pixel.id ∘ (fun i => s.getD i default) := rfl
    rw [this, ← List.map_map, map_getD_range]
    exact hid

/-- Witness for C10 at the concrete equal-size 2×2 scenario. -/
theorem create_assignment_equal_sizes_bijection_witness :
    wSource.length = wTarget.length ∧ ((wSource.map Pixel.id).Nodup) ∧
    ((((create_assignment wSource wTarget 42).map Entry.dst_pos : List (Int × Int)) :
        Multiset (Int × Int)) =
      ((wTarget.map Pixel.src_pos : List (Int × Int)) : Multiset (Int × Int)) ∧
    ((create_assignment wSource wTarget 42).map Entry.id).Nodup) :=
  ⟨by decide, by decide,
    create_assignment_equal_sizes_bijection wSource wTarget 42 (by decide) (by decide)⟩

/-! ## Frame compositor and animation encoder (`render.py`)

Rasters are lists of rows of colors.  NumPy's float32 interpolation is
modelled with exact rationals (the verified boundary claims evaluate it
only at `t = 0` and `t = 1`, where float arithmetic on integer-valued
operands is exact), `np.round` with round-half-to-even, and the fancy
assignment `small_img[y_coords, x_coords] = colors` as a sequential fold
in which a later write silently overwrites an earlier one. -/

/-- A working raster: a list of `height` rows, each a list of `width`
RGB colors. -/
abbrev Img := List (List Color)

/-- The zero color of `np.zeros((height, width, 3), dtype=np.uint8)`. -/
def zeroColor : Color := ⟨0, 0, 0⟩

/-- `np.zeros((h, w, 3), dtype=np.uint8)`. -/
def zeroImage (h w : Nat) : Img := List.replicate h (List.replicate w zeroColor)

/-- Read the pixel at row `y`, column `x`. -/
def getPixel (img : Img) (y x : Nat) : Color := ((img[y]?.getD [])[x]?).getD zeroColor

/-- Write color `c` at row `y`, column `x` (no-op out of range, which the
in-range claims never hit). -/
def setPixel (img : Img) (y x : Nat) (c : Color) : Img :=
  img.set y ((img[y]?.getD []).set x c)

/-- `np.round`: round half to even (banker's rounding), as NumPy does. -/
def npRound (q : ℚ) : Int :=
  if q - Int.floor q = 1 / 2 then
    (if 2 ∣ Int.floor q then Int.floor q else Int.floor q + 1)
  else round q

/-- `np.clip(v, 0, n - 1)` followed by use as a row/column index. -/
def clipIndex (v : Int) (n : Nat) : Nat := (min (max v 0) ((n : Int) - 1)).toNat

/-- One interpolated position:
`np.round(src_pos + (dst_pos - src_pos) * t)`, component-wise, positions
being `(x, y)` pairs. -/
def interpPos (sp dp : Int × Int) (t : ℚ) : Int × Int :=
  (npRound ((sp.1 : ℚ) + ((dp.1 : ℚ) - (sp.1 : ℚ)) * t),
   npRound ((sp.2 : ℚ) + ((dp.2 : ℚ) - (sp.2 : ℚ)) * t))

/-- The vectorized assignment `small_img[y_coords, x_coords] = colors`
with `y_coords = clip(positions[:,1], 0, h-1)` and
`x_coords = clip(positions[:,0], 0, w-1)`: sequential writes, later
entries overwriting earlier ones at a shared cell. -/
def writePixelList (h w : Nat) (ps : List ((Int × Int) × Color)) (img : Img) : Img :=
  ps.foldl (fun acc pc => setPixel acc (clipIndex pc.1.2 h) (clipIndex pc.1.1 w) pc.2) img

/-- The working-resolution image written by `_create_frame_vectorized`
before magnification. -/
def smallFrame (mapping : List Entry) (h w : Nat) (t : ℚ) : Img :=
  writePixelList h w
    (mapping.map (fun e => (interpPos e.src_pos e.dst_pos t, e.color)))
    (zeroImage h w)

/-- `cv2.resize(small, (w*scale, h*scale), interpolation=cv2.INTER_NEAREST)`
for an integer magnification: each working pixel becomes a
`scale × scale` block. -/
def resizeNearest (img : Img) (h w scale : Nat) : Img :=
  (List.range (h * scale)).map fun y =>
    (List.range (w * scale)).map fun x => getPixel img (y / scale) (x / scale)

/-- `render._create_frame_vectorized`: interpolate, clip, write, then
magnify when `scale > 1`. -/
def create_frame_vectorized (mapping : List Entry) (h w scale : Nat) (t : ℚ) : Img :=
  let small := smallFrame mapping h w t
  if 1 < scale then resizeNearest small h w scale else small

/-- The failure `create_animation` can actually raise on degenerate
numeric parameters: `frames[-1]` on an empty frame list. -/
inductive RenderError where
  | indexError
deriving DecidableEq, Repr

/-- Python `int(q)` for the quantities used by `create_animation`:
truncation toward zero, landing in `Nat` because a negative
`int(fps*duration)` drives only an empty `range` exactly as `0` does. -/
def pyIntNat (q : ℚ) : Nat := (Int.floor q).toNat

/-- The generated (non-hold) frames of `render.create_animation`:
`t = frame_idx / (num_frames - 1)` when `num_frames > 1`, else `t = 1.0`. -/
def animationFrames (mapping : List Entry) (h w scale nf : Nat) : List Img :=
  (List.range nf).map fun (frame_idx : Nat) =>
    create_frame_vectorized mapping h w scale
      (if 1 < nf then (frame_idx : ℚ) / ((nf : ℚ) - 1) else 1)

/-- `render.create_animation`, modelled up to (but excluding) container
encoding: compute `num_frames = int(fps * duration)`, render the frames,
then append `int(fps)` repetitions of `frames[-1]` as the terminal hold.
`frames[-1]` on an empty frame list raises an IndexError. -/
def create_animation (mapping : List Entry) (h w fps : Nat) (duration : ℚ)
    (scale : Nat) : Except RenderError (List Img) :=
  let num_frames := pyIntNat ((fps : ℚ) * duration)
  let frames := animationFrames mapping h w scale num_frames
  match frames.getLast? with
  | none => Except.error RenderError.indexError
  | some final_frame => Except.ok (frames ++ List.replicate fps final_frame)

section RenderLemmas

/-- The raster has `h` rows of `w` pixels each. -/
def imgShape (img : Img) (h w : Nat) : Prop :=
  img.length = h ∧ ∀ row ∈ img, row.length = w

lemma zeroImage_shape (h w : Nat) : imgShape (zeroImage h w) h w := by
  constructor
  · simp [zeroImage]
  · intro row hr
    rw [zeroImage] at hr
    rw [List.eq_of_mem_replicate hr]
    simp

lemma setPixel_shape {img : Img} {h w : Nat} (hs : imgShape img h w)
    (y x : Nat) (c : Color) : imgShape (setPixel img y x c) h w := by
  obtain ⟨hlen, hrow⟩ := hs
  by_cases hy : y < img.length
  · refine ⟨by simpa [setPixel] using hlen, ?_⟩
    intro row hr
    rcases List.mem_or_eq_of_mem_set hr with hmem | heq
    · exact hrow row hmem
    · rw [heq, List.length_set]
      refine hrow _ ?_
      rw [List.getElem?_eq_getElem hy, Option.getD_some]
      exact List.getElem_mem hy
  · have hnoop : setPixel img y x c = img := by
      rw [setPixel, List.set_eq_of_length_le (by omega)]
    rw [hnoop]
    exact ⟨hlen, hrow⟩

lemma writePixelList_shape {h w : Nat} (ps : List ((Int × Int) × Color)) :
    ∀ {img : Img}, imgShape img h w → imgShape (writePixelList h w ps img) h w := by
  induction ps with
  | nil => intro img hs; exact hs
  | cons pc ps ih =>
      intro img hs
      exact ih (setPixel_shape hs _ _ _)

lemma getPixel_setPixel_self {img : Img} {h w : Nat} (hs : imgShape img h w)
    {y x : Nat} (hy : y < h) (hx : x < w) (c : Color) :
    getPixel (setPixel img y x c) y x = c := by
  obtain ⟨hlen, hrow⟩ := hs
  have hy' : y < img.length := by omega
  have hrl : (img[y]?.getD []).length = w := by
    rw [List.getElem?_eq_getElem hy', Option.getD_some]
    exact hrow _ (List.getElem_mem hy')
  rw [getPixel, setPixel, List.getElem?_set_self hy', Option.getD_some,
    List.getElem?_set_self (by omega), Option.getD_some]

lemma getPixel_setPixel_ne {img : Img} (y' x' y x : Nat) (c : Color)
    (hne : y ≠ y' ∨ x ≠ x') :
    getPixel (setPixel img y' x' c) y x = getPixel img y x := by
  rcases hne with hne | hne
  · rw [getPixel, setPixel, List.getElem?_set_ne (Ne.symm hne)]
    rfl
  · by_cases hyy : y = y'
    · subst hyy
      by_cases hy : y < img.length
      · rw [getPixel, setPixel, List.getElem?_set_self hy, Option.getD_some,
          List.getElem?_set_ne (Ne.symm hne)]
        rfl
      · rw [setPixel, List.set_eq_of_length_le (by omega)]
    · rw [getPixel, setPixel, List.getElem?_set_ne (Ne.symm hyy)]
      rfl

lemma npRound_intCast (n : Int) : npRound (n : ℚ) = n := by
  rw [npRound, if_neg, round_intCast]
  rw [Int.floor_intCast]
  norm_num

lemma interpPos_zero (sp dp : Int × Int) : interpPos sp dp 0 = sp := by
  have harith : ∀ a b : ℚ, a + (b - a) * 0 = a := by intro a b; ring
  simp [interpPos, harith, npRound_intCast]

lemma interpPos_one (sp dp : Int × Int) : interpPos sp dp 1 = dp := by
  have harith : ∀ a b : ℚ, a + (b - a) * 1 = b := by intro a b; ring
  simp [interpPos, harith, npRound_intCast]

lemma clipIndex_of_bounds {v : Int} {n : Nat} (_h0 : 0 ≤ v) (hn : v < (n : Int)) :
    clipIndex v n = v.toNat := by
  rw [clipIndex]
  omega

lemma clipIndex_lt {v : Int} {n : Nat} (hn : 1 ≤ n) : clipIndex v n < n := by
  rw [clipIndex]
  omega

lemma getD_map_of_lt {α β : Type} [Inhabited α] [Inhabited β] (f : α → β)
    (l : List α) (k : Nat) (hk : k < l.length) :
    (l.map f).getD k default = f (l.getD k default) := by
  rw [List.getD_eq_getElem _ _ (by simpa using hk), List.getElem_map,
    List.getD_eq_getElem _ _ hk]

lemma getD_mem_of_lt' {α : Type} [Inhabited α] {l : List α} {i : Nat}
    (h : i < l.length) : l.getD i default ∈ l := by
  rw [List.getD_eq_getElem l default h]
  exact List.getElem_mem h

lemma writePixelList_concat (h w : Nat) (ps : List ((Int × Int) × Color))
    (pc : (Int × Int) × Color) (img : Img) :
    writePixelList h w (ps ++ [pc]) img =
      setPixel (writePixelList h w ps img) (clipIndex pc.1.2 h) (clipIndex pc.1.1 w) pc.2 := by
  rw [writePixelList, List.foldl_append]
  rfl

/-- The sequential vectorized write realizes last-writer-wins: the cell of
the `k`-th write holds the `k`-th color provided no later write lands on
the same (clipped) cell. -/
lemma getPixel_writePixelList {h w : Nat} (hh : 1 ≤ h) (hw : 1 ≤ w)
    (ps : List ((Int × Int) × Color)) :
    ∀ (img : Img), imgShape img h w →
    ∀ k, k < ps.length →
    (∀ j, j < ps.length → k < j →
       clipIndex (ps.getD j default).1.2 h ≠ clipIndex (ps.getD k default).1.2 h ∨
       clipIndex (ps.getD j default).1.1 w ≠ clipIndex (ps.getD k default).1.1 w) →
    getPixel (writePixelList h w ps img)
        (clipIndex (ps.getD k default).1.2 h) (clipIndex (ps.getD k default).1.1 w) =
      (ps.getD k default).2 := by
  induction ps using List.reverseRecOn with
  | nil => intro img _ k hk; exact absurd hk (by simp)
  | append_singleton ps pc ih =>
      intro img hshape k hk hlater
      rw [writePixelList_concat]
      have hlen : (ps ++ [pc]).length = ps.length + 1 := by simp
      by_cases hkl : k = ps.length
      · subst hkl
        have hgd : (ps ++ [pc]).getD ps.length default = pc := by
          rw [List.getD_eq_getElem _ _ (by simp),
            List.getElem_append_right (Nat.le_refl _)]
          simp
        rw [hgd]
        exact getPixel_setPixel_self (writePixelList_shape ps hshape)
          (clipIndex_lt hh) (clipIndex_lt hw) pc.2
      · have hk' : k < ps.length := by omega
        have hgd : (ps ++ [pc]).getD k default = ps.getD k default := by
          rw [List.getD_eq_getElem _ _ (by simp; omega),
            List.getElem_append_left (by omega), List.getD_eq_getElem _ _ hk']
        have hgdlast : (ps ++ [pc]).getD ps.length default = pc := by
          rw [List.getD_eq_getElem _ _ (by simp),
            List.getElem_append_right (Nat.le_refl _)]
          simp
        have hnelast := hlater ps.length (by omega) (by omega)
        rw [hgdlast, hgd] at hnelast
        rw [hgd]
        rw [getPixel_setPixel_ne _ _ _ _ _ (by tauto)]
        refine ih img hshape k hk' ?_
        intro j hj hkj
        have := hlater j (by omega) hkj
        have hgdj : (ps ++ [pc]).getD j default = ps.getD j default := by
          rw [List.getD_eq_getElem _ _ (by simp; omega),
            List.getElem_append_left (by omega), List.getD_eq_getElem _ _ hj]
        rwa [hgdj, hgd] at this

/-- The clipped write cell of an in-bounds position `(x, y)` is the cell
`(y.toNat, x.toNat)` itself, and distinct in-bounds positions write
distinct cells. -/
lemma smallFrame_last_writer (mapping : List Entry) (h w : Nat)
    (hh : 1 ≤ h) (hw : 1 ≤ w) (t : ℚ) (pos : Entry → Int × Int)
    (hpos : ∀ e ∈ mapping, interpPos e.src_pos e.dst_pos t = pos e)
    (hb : ∀ e ∈ mapping, 0 ≤ (pos e).1 ∧ (pos e).1 < (w : Int) ∧
      0 ≤ (pos e).2 ∧ (pos e).2 < (h : Int))
    (k : Nat) (hk : k < mapping.length)
    (hlater : ∀ j, j < mapping.length → k < j →
      pos (mapping.getD j default) ≠ pos (mapping.getD k default)) :
    getPixel (smallFrame mapping h w t)
        ((pos (mapping.getD k default)).2.toNat) ((pos (mapping.getD k default)).1.toNat) =
      (mapping.getD k default).color := by
  set f : Entry → (Int × Int) × Color :=
    fun e => (interpPos e.src_pos e.dst_pos t, e.color) with hf
  have hps : ∀ i, i < mapping.length →
      (mapping.map f).getD i default = (pos (mapping.getD i default), (mapping.getD i default).color) := by
    intro i hi
    rw [getD_map_of_lt f mapping i hi, hf]
    have hm : mapping.getD i default ∈ mapping := getD_mem_of_lt' hi
    show (interpPos (mapping.getD i default).src_pos (mapping.getD i default).dst_pos t,
        (mapping.getD i default).color) = _
    rw [hpos _ hm]
  have hbk := hb _ (getD_mem_of_lt' hk)
  have hclip2 : clipIndex (pos (mapping.getD k default)).2 h =
      (pos (mapping.getD k default)).2.toNat :=
    clipIndex_of_bounds hbk.2.2.1 hbk.2.2.2
  have hclip1 : clipIndex (pos (mapping.getD k default)).1 w =
      (pos (mapping.getD k default)).1.toNat :=
    clipIndex_of_bounds hbk.1 hbk.2.1
  have hmain := getPixel_writePixelList hh hw (mapping.map f) (zeroImage h w)
    (zeroImage_shape h w) k (by simpa using hk) ?_
  · rw [hps k hk] at hmain
    rw [smallFrame, ← hf]
    rw [hclip2, hclip1] at hmain
    exact hmain
  · intro j hj hkj
    have hj' : j < mapping.length := by simpa using hj
    rw [hps j hj', hps k hk]
    have hbj := hb _ (getD_mem_of_lt' hj')
    have hne := hlater j hj' hkj
    have hcj2 : clipIndex (pos (mapping.getD j default)).2 h =
        (pos (mapping.getD j default)).2.toNat :=
      clipIndex_of_bounds hbj.2.2.1 hbj.2.2.2
    have hcj1 : clipIndex (pos (mapping.getD j default)).1 w =
        (pos (mapping.getD j default)).1.toNat :=
      clipIndex_of_bounds hbj.1 hbj.2.1
    rw [hcj2, hcj1, hclip2, hclip1]
    by_contra hcon
    push_neg at hcon
    apply hne
    have h1 : (pos (mapping.getD j default)).1 = (pos (mapping.getD k default)).1 := by
      omega
    have h2 : (pos (mapping.getD j default)).2 = (pos (mapping.getD k default)).2 := by
      omega
    exact Prod.ext h1 h2

lemma animationFrames_length (mapping : List Entry) (h w scale nf : Nat) :
    (animationFrames mapping h w scale nf).length = nf := by
  rw [animationFrames, List.length_map, List.length_range]

/-- What `create_animation` actually does with its frame count: at least
one generated frame gives `int(fps*duration) + fps` total frames; zero
generated frames give the `frames[-1]` IndexError. -/
lemma create_animation_cases (mapping : List Entry) (h w fps : Nat) (duration : ℚ)
    (scale : Nat) :
    (1 ≤ pyIntNat ((fps : ℚ) * duration) →
      ∃ frames, create_animation mapping h w fps duration scale = Except.ok frames ∧
        frames.length = pyIntNat ((fps : ℚ) * duration) + fps) ∧
    (pyIntNat ((fps : ℚ) * duration) = 0 →
      create_animation mapping h w fps duration scale =
        Except.error RenderError.indexError) := by
  have hca : create_animation mapping h w fps duration scale =
      match (animationFrames mapping h w scale (pyIntNat ((fps : ℚ) * duration))).getLast? with
      | none => Except.error RenderError.indexError
      | some final_frame =>
          Except.ok (animationFrames mapping h w scale (pyIntNat ((fps : ℚ) * duration)) ++
            List.replicate fps final_frame) := rfl
  constructor
  · intro h1
    rcases hfr : (animationFrames mapping h w scale
        (pyIntNat ((fps : ℚ) * duration))).getLast? with _ | y
    · rw [List.getLast?_eq_none_iff] at hfr
      have := congrArg List.length hfr
      rw [animationFrames_length] at this
      simp at this
      omega
    · refine ⟨animationFrames mapping h w scale (pyIntNat ((fps : ℚ) * duration)) ++
        List.replicate fps y, ?_, ?_⟩
      · rw [hca, hfr]
      · rw [List.length_append, animationFrames_length, List.length_replicate]
  · intro h0
    have hempty : animationFrames mapping h w scale (pyIntNat ((fps : ℚ) * duration)) = [] := by
      rw [h0, animationFrames]
      rfl
    rw [hca, hempty]
    rfl

section RenderWitnessInputs

/-- A concrete two-entry mapping inside a 2×2 working raster. -/
def wMap5 : List Entry :=
  [⟨0, ⟨9, 9, 9⟩, (0, 0), (1, 1)⟩, ⟨1, ⟨7, 7, 7⟩, (1, 0), (0, 1)⟩]

/-- A concrete one-entry mapping inside a 1×1 working raster. -/
def wMapC4 : List Entry := [⟨0, ⟨1, 2, 3⟩, (0, 0), (0, 0)⟩]

lemma pyIntNat_two_mul_one : pyIntNat (((2 : Nat) : ℚ) * 1) = 2 := by
  have hfl : ⌊((2 : Nat) : ℚ) * 1⌋ = 2 := by norm_num
  rw [pyIntNat, hfl]
  rfl

lemma pyIntNat_three_halves : pyIntNat (((3 : Nat) : ℚ) * (1 / 2)) = 1 := by
  have hfl : ⌊((3 : Nat) : ℚ) * (1 / 2)⌋ = 1 := by norm_num
  rw [pyIntNat, hfl]
  rfl

end RenderWitnessInputs

/-- **C5.** For a mapping whose positions lie in the working raster, the
compositor at `t = 0` holds each entry's color at that entry's `src_pos`
(modulo overwrite collisions: a later entry writing the same cell silently
overwrites an earlier one), and at `t = 1` holds each entry's color at
that entry's `dst_pos`, reproducing the destination layout for all mapped
entries. -/
theorem frame_boundary_composition (mapping : List Entry) (h w : Nat)
    (hh : 1 ≤ h) (hw : 1 ≤ w)
    (hb : ∀ e ∈ mapping,
      (0 ≤ e.src_pos.1 ∧ e.src_pos.1 < (w : Int) ∧
        0 ≤ e.src_pos.2 ∧ e.src_pos.2 < (h : Int)) ∧
      (0 ≤ e.dst_pos.1 ∧ e.dst_pos.1 < (w : Int) ∧
        0 ≤ e.dst_pos.2 ∧ e.dst_pos.2 < (h : Int))) :
    (∀ k, k < mapping.length →
      (∀ j, j < mapping.length → k < j →
        (mapping.getD j default).src_pos ≠ (mapping.getD k default).src_pos) →
      getPixel (create_frame_vectorized mapping h w 1 0)
          (mapping.getD k default).src_pos.2.toNat (mapping.getD k default).src_pos.1.toNat =
        (mapping.getD k default).color) ∧
    (∀ k, k < mapping.length →
      (∀ j, j < mapping.length → k < j →
        (mapping.getD j default).dst_pos ≠ (mapping.getD k default).dst_pos) →
      getPixel (create_frame_vectorized mapping h w 1 1)
          (mapping.getD k default).dst_pos.2.toNat (mapping.getD k default).dst_pos.1.toNat =
        (mapping.getD k default).color) := by
  have hscale : ∀ t : ℚ, create_frame_vectorized mapping h w 1 t = smallFrame mapping h w t := by
    intro t
    rw [create_frame_vectorized]
    simp
  constructor
  · intro k hk hlater
    rw [hscale]
    exact smallFrame_last_writer mapping h w hh hw 0 Entry.src_pos
      (fun e _ => interpPos_zero _ _) (fun e he => (hb e he).1) k hk hlater
  · intro k hk hlater
    rw [hscale]
    exact smallFrame_last_writer mapping h w hh hw 1 Entry.dst_pos
      (fun e _ => interpPos_one _ _) (fun e he => (hb e he).2) k hk hlater

/-- Witness for C5: the first entry of the concrete mapping is reproduced
at its `src_pos` in the `t = 0` frame. -/
theorem frame_boundary_composition_witness :
    getPixel (create_frame_vectorized wMap5 2 2 1 0)
        (wMap5.getD 0 default).src_pos.2.toNat (wMap5.getD 0 default).src_pos.1.toNat =
      (wMap5.getD 0 default).color :=
  (frame_boundary_composition wMap5 2 2 (by decide) (by decide) (by decide)).1
    0 (by decide) (by decide)

/-- **C7.** For every mapping, working dimensions and `scale ≥ 1`, the
frame produced by the compositor has exactly `h*scale` rows of `w*scale`
pixels (each a 3-channel color), and each working pixel is expanded into a
`scale × scale` block by nearest-neighbor magnification. -/
theorem frame_magnification (mapping : List Entry) (h w scale : Nat) (t : ℚ)
    (hs : 1 ≤ scale) :
    (create_frame_vectorized mapping h w scale t).length = h * scale ∧
    (∀ row ∈ create_frame_vectorized mapping h w scale t, row.length = w * scale) ∧
    (∀ y x, y < h * scale → x < w * scale →
      getPixel (create_frame_vectorized mapping h w scale t) y x =
        getPixel (smallFrame mapping h w t) (y / scale) (x / scale)) := by
  by_cases h1 : 1 < scale
  · have hred : create_frame_vectorized mapping h w scale t =
        resizeNearest (smallFrame mapping h w t) h w scale := by
      rw [create_frame_vectorized]
      simp [h1]
    rw [hred]
    refine ⟨by simp [resizeNearest], ?_, ?_⟩
    · intro row hr
      rw [resizeNearest] at hr
      rcases List.mem_map.mp hr with ⟨y, _, rfl⟩
      simp
    · intro y x hy hx
      rw [resizeNearest, getPixel, List.getElem?_map, List.getElem?_range hy]
      simp only [Option.map_some', Option.getD_some]
      rw [List.getElem?_map, List.getElem?_range hx]
      rfl
  · have hs1 : scale = 1 := by omega
    subst hs1
    have hred : create_frame_vectorized mapping h w 1 t = smallFrame mapping h w t := by
      rw [create_frame_vectorized]
      simp
    rw [hred]
    refine ⟨?_, ?_, ?_⟩
    · rw [smallFrame, Nat.mul_one]
      exact (writePixelList_shape _ (zeroImage_shape h w)).1
    · intro row hr
      rw [smallFrame] at hr
      rw [Nat.mul_one]
      exact (writePixelList_shape _ (zeroImage_shape h w)).2 row hr
    · intro y x _ _
      rw [Nat.div_one, Nat.div_one]

/-- Witness for C7: at `scale = 8` on a 2×2 working raster the frame has
`2*8` rows. -/
theorem frame_magnification_witness :
    1 ≤ 8 ∧ (create_frame_vectorized wMap5 2 2 8 0).length = 2 * 8 :=
  ⟨by decide, (frame_magnification wMap5 2 2 8 0 (by decide)).1⟩

/-- **C4 (amended).** `create_animation` computes
`num_frames = int(fps * duration)` — truncation, with no minimum-1 clamp —
then renders exactly that many frames and appends `int(fps)` repetitions
of the final frame, so when `int(fps*duration) ≥ 1` the total is
`int(fps*duration) + fps`; when `int(fps*duration) = 0` it raises an
IndexError (`frames[-1]` on an empty list) instead of encoding. -/
theorem create_animation_frame_count (mapping : List Entry) (h w fps : Nat)
    (duration : ℚ) (scale : Nat) :
    (1 ≤ pyIntNat ((fps : ℚ) * duration) →
      ∃ frames, create_animation mapping h w fps duration scale = Except.ok frames ∧
        frames.length = pyIntNat ((fps : ℚ) * duration) + fps) ∧
    (pyIntNat ((fps : ℚ) * duration) = 0 →
      create_animation mapping h w fps duration scale =
        Except.error RenderError.indexError) :=
  create_animation_cases mapping h w fps duration scale

/-- Witness for C4 (amended) at `fps = 2`, `duration = 1`. -/
theorem create_animation_frame_count_witness :
    1 ≤ pyIntNat (((2 : Nat) : ℚ) * 1) ∧
    (∃ frames, create_animation wMapC4 1 1 2 1 1 = Except.ok frames ∧
      frames.length = pyIntNat (((2 : Nat) : ℚ) * 1) + 2) :=
  ⟨by rw [pyIntNat_two_mul_one]; omega,
    (create_animation_frame_count wMapC4 1 1 2 1 1).1 (by rw [pyIntNat_two_mul_one]; omega)⟩

/-- Counterexample to C4 as stated: at `fps = 3`, `duration = 0.5` the
code produces `int(3*0.5) + 3 = 4` total frames, while
`round(3*0.5) + 3 = 5`; the code truncates where the claim rounds. -/
theorem create_animation_frame_count_cex :
    (create_animation wMapC4 1 1 3 (1 / 2) 1).toOption.map List.length = some 4 ∧
    round ((3 : ℚ) * (1 / 2)) + 3 = (5 : ℤ) ∧ (4 : ℤ) ≠ 5 := by
  refine ⟨?_, ?_, by decide⟩
  · obtain ⟨frames, heq, hlen⟩ := (create_animation_cases wMapC4 1 1 3 (1 / 2) 1).1
      (by rw [pyIntNat_three_halves])
    rw [heq]
    simp only [Except.toOption, Option.map_some']
    rw [hlen, pyIntNat_three_halves]
  · have hr : round ((3 : ℚ) * (1 / 2)) = 2 := by
      rw [round_eq]
      norm_num
    rw [hr]
    norm_num

/-- **C6 (amended).** The core encoder performs no numeric-parameter
validation at all: handed the invalid `scale = 0` it still succeeds
(producing unmagnified frames) whenever at least one frame is generated;
no ConfigurationError exists in the core, and the only degenerate-input
failure is the IndexError of the empty frame list. -/
theorem create_animation_no_parameter_validation (mapping : List Entry) (h w fps : Nat)
    (duration : ℚ) (h1 : 1 ≤ pyIntNat ((fps : ℚ) * duration)) :
    (create_animation mapping h w fps duration 0).isOk = true := by
  obtain ⟨frames, heq, _⟩ := (create_animation_cases mapping h w fps duration 0).1 h1
  rw [heq]
  rfl

/-- Witness for C6 (amended) at `fps = 2`, `duration = 1`, `scale = 0`. -/
theorem create_animation_no_parameter_validation_witness :
    1 ≤ pyIntNat (((2 : Nat) : ℚ) * 1) ∧ (create_animation wMapC4 1 1 2 1 0).isOk = true :=
  ⟨by rw [pyIntNat_two_mul_one]; omega,
    create_animation_no_parameter_validation wMapC4 1 1 2 1
      (by rw [pyIntNat_two_mul_one]; omega)⟩

/-- Counterexample to C6 as stated: `scale = 0 < 1` with valid `fps` and
`duration` is not rejected before rendering — the call completes
successfully instead of failing with a ConfigurationError. -/
theorem create_animation_scale_zero_not_rejected_cex :
    (create_animation wMapC4 1 1 2 1 0).isOk = true := by
  obtain ⟨frames, heq, _⟩ := (create_animation_cases wMapC4 1 1 2 1 0).1
    (by rw [pyIntNat_two_mul_one]; omega)
  rw [heq]
  rfl

end RenderLemmas

/-! ## Mapping persistence (`fileio.py`)

`save_mapping` is `json.dump(mapping, f)` and `load_mapping` is
`json.load(f)`; the text layer of the JSON format is standard, so the
round trip is modelled at the level of the JSON value tree.  Every field
of a mapping entry is an integer, and JSON number literals without a
fractional part are read back by `json.load` as Python ints, so the value
tree carries `Int` numbers. -/

/-- A JSON value as written/read by `json.dump`/`json.load` for mappings:
integers, arrays and objects with ordered keys. -/
inductive Json where
  | num : Int → Json
  | arr : List Json → Json
  | obj : List (String × Json) → Json

/-- The JSON object `json.dump` writes for one mapping entry: keys
`id`, `color`, `src_pos`, `dst_pos` in insertion order, all values
integers. -/
def entryToJson (e : Entry) : Json :=
  Json.obj [("id", Json.num e.id),
    ("color", Json.arr [Json.num e.color.r, Json.num e.color.g, Json.num e.color.b]),
    ("src_pos", Json.arr [Json.num e.src_pos.1, Json.num e.src_pos.2]),
    ("dst_pos", Json.arr [Json.num e.dst_pos.1, Json.num e.dst_pos.2])]

/-- `fileio.save_mapping`: the serialized mapping is the JSON array of the
entry objects, in mapping order. -/
def save_mapping (mapping : List Entry) : Json :=
  Json.arr (mapping.map entryToJson)

/-- Reading one entry record back from its JSON object. -/
def jsonToEntry : Json → Option Entry
  | Json.obj [("id", Json.num i),
      ("color", Json.arr [Json.num r, Json.num g, Json.num b]),
      ("src_pos", Json.arr [Json.num sx, Json.num sy]),
      ("dst_pos", Json.arr [Json.num dx, Json.num dy])] =>
      some ⟨i, ⟨r, g, b⟩, (sx, sy), (dx, dy)⟩
  | _ => none

/-- `fileio.load_mapping`: `json.load` of a serialized mapping, read back
into the entry records in array order. -/
def load_mapping : Json → Option (List Entry)
  | Json.arr js => js.mapM jsonToEntry
  | _ => none

lemma jsonToEntry_entryToJson (e : Entry) : jsonToEntry (entryToJson e) = some e := by
  obtain ⟨i, c, sp, dp⟩ := e
  obtain ⟨r, g, b⟩ := c
  obtain ⟨sx, sy⟩ := sp
  obtain ⟨dx, dy⟩ := dp
  rfl

/-- **C8.** Serializing a mapping with `save_mapping` and deserializing it
with `load_mapping` yields a structurally identical sequence: same order,
same keys, same integer values. -/
theorem save_load_mapping_roundtrip (mapping : List Entry) :
    load_mapping (save_mapping mapping) = some mapping := by
  rw [save_mapping, load_mapping]
  induction mapping with
  | nil => rfl
  | cons e m ih =>
      rw [List.map_cons]
      simp only [List.mapM_cons, jsonToEntry_entryToJson, ih]
      rfl

/-- Witness for C8 on a concrete two-entry mapping. -/
theorem save_load_mapping_roundtrip_witness :
    load_mapping (save_mapping wMap5) = some wMap5 :=
  save_load_mapping_roundtrip wMap5

/-! ## Nearest-neighbor assignment variant (`assign.create_kdtree_assignment`) -/

/-- Squared distance in the 3-dimensional feature space
`[x/size, y/size, luminance]`. -/
def sqDist (a b : ℚ × ℚ × ℚ) : ℚ :=
  (a.1 - b.1) ^ 2 + (a.2.1 - b.2.1) ^ 2 + (a.2.2 - b.2.2) ^ 2

/-- `KDTree(target_features).query(q, k=1)`, modelled as the lowest-index
argmin of squared feature distance (SciPy does not document its tie
order; the properties proved below do not depend on ties). -/
def nearestTargetIndex (feats : List (ℚ × ℚ × ℚ)) (q : ℚ × ℚ × ℚ) : Nat :=
  (List.range feats.length).foldl
    (fun best i =>
      if sqDist (feats.getD i (0, 0, 0)) q < sqDist (feats.getD best (0, 0, 0)) q
      then i else best) 0

/-- Python `max` over a nonempty list (`max(p['src_pos'][k] for p in ...)`);
the `[]` case is unreachable behind the emptiness guard. -/
def maxPosList : List Int → Int
  | [] => 0
  | a :: tl => tl.foldl max a

/-- The grid size `create_kdtree_assignment` infers from the source pool:
`size = int(round((size_x + size_y) / 2))` with `size_x = max x + 1`,
`size_y = max y + 1` (Python's `round` is also round-half-to-even). -/
def kdSize (source_pixels : List Pixel) : Int :=
  npRound
    ((((maxPosList (source_pixels.map fun p => p.src_pos.1) + 1) +
       (maxPosList (source_pixels.map fun p => p.src_pos.2) + 1) : Int) : ℚ) / 2)

/-- The feature vector `[x/size, y/size, luminance]` of a pixel. -/
def pixelFeature (size : Int) (p : Pixel) : ℚ × ℚ × ℚ :=
  ((p.src_pos.1 : ℚ) / (size : ℚ), (p.src_pos.2 : ℚ) / (size : ℚ),
    calculate_luminance p.color)

/-- The probe loop body with explicit fuel (`n` steps always suffice):
`while tgt_idx in used_indices and tgt_idx < len(target_pixels) - 1:
tgt_idx += 1`. -/
def probeGo (used : List Nat) (n : Nat) : Nat → Nat → Nat
  | 0, t => t
  | fuel + 1, t => if t ∈ used ∧ t + 1 < n then probeGo used n fuel (t + 1) else t

/-- The collision-resolution probe of `create_kdtree_assignment`. -/
def probeIdx (used : List Nat) (n t : Nat) : Nat := probeGo used n n t

/-- The `used_indices` fold of `create_kdtree_assignment`: each nearest
index is probed against the already-used set, then recorded as used. -/
def assignedIndices (n : Nat) : List Nat → List Nat → List Nat
  | _, [] => []
  | used, t0 :: rest =>
      probeIdx used n t0 :: assignedIndices n (probeIdx used n t0 :: used) rest

/-- `assign.create_kdtree_assignment`: infer the grid size, build feature
vectors, query the nearest target for every source pixel, resolve
collisions by the forward probe, and emit one entry per source pixel
(the seed is consumed by `np.random.seed` but no draw follows). -/
def create_kdtree_assignment (source_pixels target_pixels : List Pixel)
    (_seed : Nat) : List Entry :=
  if source_pixels.isEmpty then [] else
  let size := kdSize source_pixels
  let target_features := target_pixels.map (pixelFeature size)
  let source_features := source_pixels.map (pixelFeature size)
  let nns := source_features.map (nearestTargetIndex target_features)
  let idxs := assignedIndices target_pixels.length [] nns
  (source_pixels.zip idxs).map fun p => mkEntry p.1 (target_pixels.getD p.2 default)

lemma probeGo_spec (used : List Nat) (n : Nat) :
    ∀ fuel t, n ≤ fuel + t + 1 →
      t ≤ probeGo used n fuel t ∧
      (probeGo used n fuel t ∉ used ∨ ¬ probeGo used n fuel t + 1 < n) ∧
      (∀ v, t ≤ v → v < probeGo used n fuel t → v ∈ used) := by
  intro fuel
  induction fuel with
  | zero =>
      intro t ht
      simp only [probeGo]
      exact ⟨Nat.le_refl t, Or.inr (by omega),
        fun v hv1 hv2 => absurd (lt_of_le_of_lt hv1 hv2) (lt_irrefl t)⟩
  | succ fuel ih =>
      intro t ht
      by_cases hc : t ∈ used ∧ t + 1 < n
      · rw [probeGo, if_pos hc]
        obtain ⟨ihs1, ihs2, ihs3⟩ := ih (t + 1) (by omega)
        refine ⟨by omega, ihs2, fun v hv1 hv2 => ?_⟩
        rcases Nat.eq_or_lt_of_le hv1 with heq | hlt
        · exact heq ▸ hc.1
        · exact ihs3 v (by omega) hv2
      · rw [probeGo, if_neg hc]
        refine ⟨Nat.le_refl t, ?_,
          fun v hv1 hv2 => absurd (lt_of_le_of_lt hv1 hv2) (lt_irrefl t)⟩
        by_cases hu : t ∈ used
        · exact Or.inr fun hlt => hc ⟨hu, hlt⟩
        · exact Or.inl hu

/-- **C9 (amended).** In `create_kdtree_assignment` the collision probe
walks forward from the nearest index while the index is used *and* a next
index exists; it stops — and assigns — the last target index even when
that index is already used, so entries are not guaranteed distinct target
indices.  What holds: the assigned index is at least the nearest index,
every skipped index was already used, and the assigned index is either
fresh or the final index `len(target) - 1`; the mapping is the zip of the
source pool with these probed indices. -/
theorem create_kdtree_assignment_probing :
    (∀ (used : List Nat) (n t0 : Nat),
      t0 ≤ probeIdx used n t0 ∧
      (probeIdx used n t0 ∉ used ∨ ¬ probeIdx used n t0 + 1 < n) ∧
      (∀ v, t0 ≤ v → v < probeIdx used n t0 → v ∈ used)) ∧
    (∀ (source_pixels target_pixels : List Pixel) (seed : Nat),
      source_pixels.isEmpty = false →
      create_kdtree_assignment source_pixels target_pixels seed =
        (source_pixels.zip
          (assignedIndices target_pixels.length []
            ((source_pixels.map (pixelFeature (kdSize source_pixels))).map
              (nearestTargetIndex
                (target_pixels.map (pixelFeature (kdSize source_pixels))))))).map
          (fun p => mkEntry p.1 (target_pixels.getD p.2 default))) := by
  constructor
  · intro used n t0
    exact probeGo_spec used n n t0 (by omega)
  · intro s t seed hne
    rw [create_kdtree_assignment, if_neg (by rw [hne]; exact Bool.false_ne_true)]

/-- Witness for C9 (amended): the probe applied to a used singleton with a
one-element target stops at the (already used) final index 0. -/
theorem create_kdtree_assignment_probing_witness :
    (0 : Nat) ≤ probeIdx [0] 1 0 ∧
    (probeIdx [0] 1 0 ∉ ([0] : List Nat) ∨ ¬ probeIdx [0] 1 0 + 1 < 1) ∧
    (∀ v, 0 ≤ v → v < probeIdx [0] 1 0 → v ∈ ([0] : List Nat)) :=
  create_kdtree_assignment_probing.1 [0] 1 0

section KdtreeCex

/-- Two source pixels on a 2×2 grid. -/
def cexSource : List Pixel := [⟨0, ⟨0, 0, 0⟩, (0, 0)⟩, ⟨1, ⟨255, 255, 255⟩, (1, 1)⟩]

/-- A single-pixel target pool: both source pixels share nearest target 0. -/
def cexTarget : List Pixel := [⟨0, ⟨0, 0, 0⟩, (0, 0)⟩]

lemma nearestTargetIndex_singleton (f q : ℚ × ℚ × ℚ) :
    nearestTargetIndex [f] q = 0 := by
  rw [nearestTargetIndex]
  show (List.range 1).foldl _ 0 = 0
  rw [show List.range 1 = [0] from rfl, List.foldl_cons, List.foldl_nil, ite_self]

end KdtreeCex

/-- Counterexample to C9 as stated: with two source pixels and one target
pixel, both probes run off the end and the single target index 0 is
assigned twice — the same target position is mapped to two different
source pixels, so entries do not receive distinct target indices. -/
theorem create_kdtree_assignment_duplicate_target_cex :
    (create_kdtree_assignment cexSource cexTarget 42).length = 2 ∧
    ((create_kdtree_assignment cexSource cexTarget 42).getD 0 default).dst_pos =
      ((create_kdtree_assignment cexSource cexTarget 42).getD 1 default).dst_pos ∧
    ((create_kdtree_assignment cexSource cexTarget 42).getD 0 default).id ≠
      ((create_kdtree_assignment cexSource cexTarget 42).getD 1 default).id := by
  have hmap : create_kdtree_assignment cexSource cexTarget 42 =
      [mkEntry (cexSource.getD 0 default) (cexTarget.getD 0 default),
       mkEntry (cexSource.getD 1 default) (cexTarget.getD 0 default)] := by
    rw [create_kdtree_assignment, if_neg (by decide)]
    show (cexSource.zip (assignedIndices cexTarget.length []
        ((cexSource.map (pixelFeature (kdSize cexSource))).map
          (nearestTargetIndex (cexTarget.map (pixelFeature (kdSize cexSource))))))).map
        (fun p => mkEntry p.1 (cexTarget.getD p.2 default)) = _
    rw [show cexTarget.map (pixelFeature (kdSize cexSource)) =
        [pixelFeature (kdSize cexSource) (cexTarget.getD 0 default)] from rfl]
    rw [show cexSource.map (pixelFeature (kdSize cexSource)) =
        [pixelFeature (kdSize cexSource) (cexSource.getD 0 default),
         pixelFeature (kdSize cexSource) (cexSource.getD 1 default)] from rfl]
    rw [List.map_cons, List.map_cons, List.map_nil,
      nearestTargetIndex_singleton, nearestTargetIndex_singleton]
    rfl
  rw [hmap]
  exact ⟨rfl, rfl, by decide⟩

end PixelPerm
